import Mathlib

/-!
Verification of the DNA sequence analysis engine.

The Python source is shallowly embedded: sequences are lists of characters
(`List Char`), Python dictionaries that preserve insertion order are
association lists `List (List Char × Nat)`, and Python's stable `sorted`
with `reverse=True` is an insertion sort with a non-strict descending
relation. Machine integers do not overflow in the source (all quantities
are small non-negative counts), so `Nat` is used throughout.
-/

/-- Model of the Python slice `s[a:b]` for `0 ≤ a ≤ b` (clamping at the end
of the list, as Python does). -/
def pySlice (s : List Char) (a b : Nat) : List Char :=
  (s.drop a).take (b - a)

/-- Model of the Python slice `s[:-m]` for a non-negative `m` as it occurs in
`count_k_mers` (`sequence[:-(number_nucleotides - 1)]`): for `m = 0` Python
yields `s[:0] = ""`, otherwise `s[:len(s)-m]` (empty when `m ≥ len(s)`). -/
def pyTailTrunc (s : List Char) (m : Nat) : List Char :=
  if m = 0 then [] else s.take (s.length - m)

/-- Model of Python `str.strip()`: remove leading and trailing whitespace. -/
def pyStrip (s : List Char) : List Char :=
  (((s.dropWhile Char.isWhitespace).reverse).dropWhile Char.isWhitespace).reverse

/-- Model of Python `str.lower()` followed by `str.strip()`, the normalization
performed by `count_nucleotides` and `count_k_mers`. -/
def pyLowerStrip (s : List Char) : List Char :=
  pyStrip (s.map Char.toLower)

/-- Model of Python `str.upper()`. -/
def pyUpper (s : List Char) : List Char :=
  s.map Char.toUpper

/-- Constant `NUCLEOTIDE_LIST` from `main.py` (a set of four characters,
modelled as a list with membership). -/
def NUCLEOTIDE_LIST : List Char := ['A', 'T', 'G', 'C']

/-- Constant `GC_ISLAND_MOTIF = "CG"` from `sequence_utils.py`. -/
def GC_ISLAND_MOTIF : List Char := ['C', 'G']

/-- Constant `AT_RUN_MOTIF = "AT"` from `sequence_utils.py`. -/
def AT_RUN_MOTIF : List Char := ['A', 'T']

/-- Constant `PALINDROME_MIN_LENGTH = 20` from `main.py`. -/
def PALINDROME_MIN_LENGTH : Nat := 20

/-- Constant `INDEX = 0` from `main.py`. -/
def INDEX : Nat := 0

/-- Embedding of `validate_sequence` (sequence_utils.py lines 309-335).
The local `seen_list` is freshly created on every call, so the inner
membership test is against the empty list; the unreachable fall-through
(which returns `None` in Python) is modelled as `false`. -/
def validate_sequence (sequence : List Char) (letter_list : List Char)
    (min_length : Nat) : Bool :=
  let seen_list : List (List Char) := []
  if min_length < sequence.length ∧ ∀ c ∈ sequence, c ∈ letter_list then
    if sequence ∈ seen_list then false else true
  else false

/-- Helper characterizing `validate_sequence` as a pure predicate. -/
theorem validate_sequence_iff (s L : List Char) (m : Nat) :
    validate_sequence s L m = true ↔ m < s.length ∧ ∀ c ∈ s, c ∈ L := by
  unfold validate_sequence
  by_cases h : m < s.length ∧ ∀ c ∈ s, c ∈ L
  · simp [h]
  · simp [h]

/-- Model of a Python `set.add` on a set of naturals represented as a
duplicate-free list. -/
def pySetAdd (l : List Nat) (x : Nat) : List Nat :=
  if x ∈ l then l else l ++ [x]

/-- Model of Python `max` over a non-empty collection of naturals. -/
def maxOfList (l : List Nat) : Nat :=
  l.foldl Nat.max 0

/-- Embedding of `find_motif` (sequence_utils.py lines 81-112), transcribed
exactly as written, including its confusions: `positions` is computed but
only its length is used; the loop strides over indices `0, step, 2*step, ...`
below `len(positions)` (Python `range(0, pos_len, step)`, modelled as the
multiples of `step`, assuming `step ≥ 1` as for the two 2-base motifs used by
callers) and slices the *sequence* at those indices; the final run length is
never added to `seen`. -/
def find_motif (sequence motif : List Char) : Nat :=
  let positions := (List.range (sequence.length - 1)).filter
    (fun i => pySlice sequence i (i + motif.length) = motif)
  let step := motif.length
  let pos_len := positions.length
  let final := ((List.range pos_len).filter (fun i => i % step = 0)).foldl
    (fun (st : Nat × List Nat) i =>
      let value := pySlice sequence i (i + step)
      if value = motif then (st.1 + step, st.2)
      else (0, pySetAdd st.2 st.1))
    (0, [])
  if 0 < final.2.length then maxOfList final.2 else 0

/-- C1: the spec requires `MotifRunFinder` to return the maximum length in
bases of a contiguous run of the motif — in particular 6 on the sequence
"CGCGCG" with motif "CG". The code, contradicting its own docstring,
returns 0 on this input: it never flushes the final accumulated run into
`seen`, and it walks indices of the sequence rather than the matched
positions. This theorem evaluates the embedded code at the failing input. -/
theorem find_motif_cgcgcg_returns_zero :
    find_motif ("CGCGCG".toList) ("CG".toList) = 0 := by decide

/-- The descending-by-count relation used to model Python
`sorted(..., key=lambda item: item[1], reverse=True)`. -/
def countGE (a b : List Char × Nat) : Prop := b.2 ≤ a.2

instance : DecidableRel countGE := fun a b => Nat.decLe b.2 a.2

instance : IsTotal (List Char × Nat) countGE := ⟨fun a b => Nat.le_total b.2 a.2⟩

instance : IsTrans (List Char × Nat) countGE := ⟨fun _ _ _ hab hbc => Nat.le_trans hbc hab⟩

/-- Model of Python `sorted(items, key=lambda item: item[1], reverse=True)`:
a stable sort, descending by the count component. Insertion sort with the
non-strict descending relation inserts each element (processed right to
left) before the later elements of equal count, which matches Python's
stability guarantee. -/
def pySortDesc (l : List (List Char × Nat)) : List (List Char × Nat) :=
  List.insertionSort countGE l

/-- Shared model of the Python expression
`sorted(d.items(), key=lambda item: item[1], reverse=True)[:limit]`
used by `find_top_values` and (with limit 5) by `count_k_mers`. -/
def pySortedTop (l : List (List Char × Nat)) (limit : Nat) : List (List Char × Nat) :=
  (pySortDesc l).take limit

/-- Embedding of `find_top_values` (sequence_utils.py lines 18-36); its
`results` argument is an ordered Python dict, modelled as an association
list in key insertion order. -/
def find_top_values (results : List (List Char × Nat)) (limit : Nat) :
    List (List Char × Nat) :=
  pySortedTop results limit

/-- Model of `d[key] += 1` on a Python `defaultdict(int)`: an ordered
association list where a missing key is appended at the end, so keys occur
in first-seen order. -/
def bumpKey (l : List (List Char × Nat)) (key : List Char) : List (List Char × Nat) :=
  match l with
  | [] => [(key, 1)]
  | kv :: rest => if kv.1 = key then (kv.1, kv.2 + 1) :: rest else kv :: bumpKey rest key

/-- The full k-mer frequency table built by the counting loop of
`count_k_mers` (sequence_utils.py lines 274-281), before the top-5
truncation, including the short-sequence guard. -/
def kmerCounts (sequence : List Char) (number_nucleotides : Nat) :
    List (List Char × Nat) :=
  let seq := pyLowerStrip sequence
  if seq.length < number_nucleotides then []
  else
    (List.range (pyTailTrunc seq (number_nucleotides - 1)).length).foldl
      (fun acc i => bumpKey acc (pySlice seq i (i + number_nucleotides))) []

/-- Embedding of `count_k_mers` (sequence_utils.py lines 258-284). The
short-sequence guard lives in `kmerCounts` (which then yields the empty
table, so the truncation of the empty table is again the empty table,
exactly the `{}` the Python function returns early). -/
def count_k_mers (sequence : List Char) (number_nucleotides : Nat) :
    List (List Char × Nat) :=
  pySortedTop (kmerCounts sequence number_nucleotides) 5

/-- Sum of the counts of a frequency table. -/
def sumVals (l : List (List Char × Nat)) : Nat := (l.map (fun kv => kv.2)).sum

/-- Filtering an `orderedInsert` by an exact count keeps the inserted
element in front of the retained tail exactly when its count matches. -/
theorem filter_count_orderedInsert (c : Nat) (a : List Char × Nat)
    (L : List (List Char × Nat)) :
    (L.orderedInsert countGE a).filter (fun kv => kv.2 == c)
      = if a.2 = c then a :: L.filter (fun kv => kv.2 == c)
        else L.filter (fun kv => kv.2 == c) := by
  induction L with
  | nil =>
    by_cases hc : a.2 = c
    · simp [List.orderedInsert, hc]
    · simp [List.orderedInsert, hc]
  | cons b t ih =>
    by_cases hr : countGE a b
    · by_cases hc : a.2 = c
      · simp [List.orderedInsert, hr, hc]
      · simp [List.orderedInsert, hr, hc]
    · have hb : ¬ b.2 = c ∨ ¬ a.2 = c := by
        by_cases hc : a.2 = c
        · left
          simp only [countGE] at hr
          omega
        · right
          exact hc
      by_cases hc : a.2 = c
      · rcases hb with hb | hb
        · simp [List.orderedInsert, hr, hc, hb, ih]
        · exact absurd hc hb
      · by_cases hbc : b.2 = c
        · simp [List.orderedInsert, hr, hc, hbc, ih]
        · simp [List.orderedInsert, hr, hc, hbc, ih]

/-- Stability of the modelled Python sort: restricting to any one count
value gives back the input entries with that count, in input order. -/
theorem filter_count_pySortDesc (c : Nat) (l : List (List Char × Nat)) :
    (pySortDesc l).filter (fun kv => kv.2 == c) = l.filter (fun kv => kv.2 == c) := by
  induction l with
  | nil => rfl
  | cons a t ih =>
    show ((pySortDesc t).orderedInsert countGE a).filter _ = _
    rw [filter_count_orderedInsert, List.filter_cons]
    by_cases hc : a.2 = c
    · simp [hc, ih]
    · simp [hc, ih]

/-- The truncated table has at most `limit` entries. -/
theorem pySortedTop_length (l : List (List Char × Nat)) (limit : Nat) :
    (pySortedTop l limit).length ≤ limit := by
  simp [pySortedTop, List.length_take]

/-- The truncated table is sorted by count, descending. -/
theorem pySortedTop_sorted (l : List (List Char × Nat)) (limit : Nat) :
    (pySortedTop l limit).Pairwise countGE :=
  List.Pairwise.sublist (List.take_sublist _ _) (List.sorted_insertionSort countGE l)

/-- Stable tie-breaking of the truncated table: for each count value, the
retained entries with that count are an initial segment of the input
entries with that count, in input order. -/
theorem pySortedTop_filter (l : List (List Char × Nat)) (limit : Nat) (c : Nat) :
    ∃ t, (pySortedTop l limit).filter (fun kv => kv.2 == c) ++ t
          = l.filter (fun kv => kv.2 == c) := by
  refine ⟨((pySortDesc l).drop limit).filter (fun kv => kv.2 == c), ?_⟩
  rw [pySortedTop, ← List.filter_append, List.take_append_drop, filter_count_pySortDesc]

/-- Sorting preserves the sum of the counts. -/
theorem sumVals_pySortDesc (l : List (List Char × Nat)) :
    sumVals (pySortDesc l) = sumVals l :=
  List.Perm.sum_eq (List.Perm.map _ (List.perm_insertionSort countGE l))

/-- Concatenation adds the sums of the counts. -/
theorem sumVals_append (l₁ l₂ : List (List Char × Nat)) :
    sumVals (l₁ ++ l₂) = sumVals l₁ + sumVals l₂ := by
  simp [sumVals]

/-- Truncation can only lower the sum of the counts. -/
theorem sumVals_pySortedTop_le (l : List (List Char × Nat)) (limit : Nat) :
    sumVals (pySortedTop l limit) ≤ sumVals l := by
  rw [← sumVals_pySortDesc l]
  have h : pySortDesc l = pySortedTop l limit ++ (pySortDesc l).drop limit :=
    (List.take_append_drop limit (pySortDesc l)).symm
  rw [h, sumVals_append]
  exact Nat.le_add_right _ _

/-- Truncation to a bound at least the table length changes nothing. -/
theorem pySortedTop_of_short (l : List (List Char × Nat)) (limit : Nat)
    (h : l.length ≤ limit) : sumVals (pySortedTop l limit) = sumVals l := by
  have hlen : (pySortDesc l).length ≤ limit := by
    rw [pySortDesc, List.length_insertionSort]
    exact h
  rw [pySortedTop, List.take_of_length_le hlen, sumVals_pySortDesc]

/-- Incrementing one key raises the total count by exactly one. -/
theorem sumVals_bumpKey (l : List (List Char × Nat)) (key : List Char) :
    sumVals (bumpKey l key) = sumVals l + 1 := by
  induction l with
  | nil => rfl
  | cons kv rest ih =>
    by_cases h : kv.1 = key
    · simp [bumpKey, h, sumVals]
      omega
    · simp [bumpKey, h, sumVals] at ih ⊢
      omega

/-- The counting loop adds one to the total per visited index. -/
theorem sumVals_foldl_bumpKey (f : Nat → List Char) :
    ∀ (is : List Nat) (acc : List (List Char × Nat)),
      sumVals (is.foldl (fun a i => bumpKey a (f i)) acc) = sumVals acc + is.length
  | [], _ => by simp
  | i :: t, acc => by
    rw [List.foldl_cons, sumVals_foldl_bumpKey f t, sumVals_bumpKey]
    simp
    omega

/-- Every key of a bumped table is the bumped key or an existing key. -/
theorem mem_bumpKey (l : List (List Char × Nat)) (key : List Char)
    (kv : List Char × Nat) : kv ∈ bumpKey l key → kv.1 = key ∨ kv ∈ l := by
  induction l with
  | nil =>
    intro h
    simp [bumpKey] at h
    simp [h]
  | cons kv' rest ih =>
    by_cases h : kv'.1 = key
    · simp [bumpKey, h]
      rintro (h1 | h1)
      · left
        rw [h1]
      · right
        right
        exact h1
    · simp [bumpKey, h]
      rintro (h1 | h1)
      · right
        left
        exact h1
      · rcases ih h1 with h2 | h2
        · left
          exact h2
        · right
          right
          exact h2

/-- Every key of the folded table arises from one of the visited windows. -/
theorem mem_foldl_bumpKey (f : Nat → List Char) :
    ∀ (is : List Nat) (acc : List (List Char × Nat)) (kv : List Char × Nat),
      kv ∈ is.foldl (fun a i => bumpKey a (f i)) acc →
        (∃ i ∈ is, kv.1 = f i) ∨ kv ∈ acc
  | [], _, _ => by
    intro h
    right
    simpa using h
  | i :: t, acc, kv => by
    intro h
    rw [List.foldl_cons] at h
    rcases mem_foldl_bumpKey f t (bumpKey acc (f i)) kv h with h1 | h1
    · rcases h1 with ⟨j, hj, hkv⟩
      exact Or.inl ⟨j, List.mem_cons_of_mem _ hj, hkv⟩
    · rcases mem_bumpKey acc (f i) kv h1 with h2 | h2
      · exact Or.inl ⟨i, List.mem_cons_self _ _, h2⟩
      · exact Or.inr h2

/-- Length of a window slice that stays inside the sequence. -/
theorem pySlice_length (s : List Char) (i L : Nat) (h : i + L ≤ s.length) :
    (pySlice s i (i + L)).length = L := by
  simp [pySlice, List.length_take, List.length_drop]
  omega

/-- The short-sequence guard of `count_k_mers`. -/
theorem kmerCounts_of_short (s : List Char) (k : Nat)
    (h : (pyLowerStrip s).length < k) : kmerCounts s k = [] := by
  simp only [kmerCounts]
  rw [if_pos h]

/-- The counting loop of `count_k_mers` when the sequence is long enough. -/
theorem kmerCounts_of_long (s : List Char) (k : Nat)
    (h : ¬ (pyLowerStrip s).length < k) :
    kmerCounts s k =
      (List.range (pyTailTrunc (pyLowerStrip s) (k - 1)).length).foldl
        (fun acc i => bumpKey acc (pySlice (pyLowerStrip s) i (i + k))) [] := by
  simp only [kmerCounts]
  rw [if_neg h]

/-- Total count of the full k-mer table: one per window, i.e.
`len − k + 1` windows (0 when the sequence is shorter than `k`). -/
theorem sumVals_kmerCounts (s : List Char) (k : Nat) (hk : 2 ≤ k) :
    sumVals (kmerCounts s k) = (pyLowerStrip s).length + 1 - k := by
  by_cases h : (pyLowerStrip s).length < k
  · rw [kmerCounts_of_short s k h]
    simp [sumVals]
    omega
  · rw [kmerCounts_of_long s k h]
    refine Eq.trans
      (sumVals_foldl_bumpKey (fun i => pySlice (pyLowerStrip s) i (i + k)) _ _) ?_
    have hlen : (pyTailTrunc (pyLowerStrip s) (k - 1)).length
        = (pyLowerStrip s).length - (k - 1) := by
      rw [pyTailTrunc, if_neg (by omega)]
      simp [List.length_take]
    simp [sumVals, hlen]
    omega

/-- Keys of the full k-mer table are windows of width `k`. -/
theorem kmerCounts_key_length (s : List Char) (k : Nat) (hk : 2 ≤ k) :
    ∀ kv ∈ kmerCounts s k, kv.1.length = k := by
  intro kv hkv
  by_cases h : (pyLowerStrip s).length < k
  · rw [kmerCounts_of_short s k h] at hkv
    simp at hkv
  · rw [kmerCounts_of_long s k h] at hkv
    rcases mem_foldl_bumpKey (fun i => pySlice (pyLowerStrip s) i (i + k)) _ _ kv hkv
      with h1 | h1
    · rcases h1 with ⟨i, hi, hkey⟩
      rw [List.mem_range] at hi
      have hlen : (pyTailTrunc (pyLowerStrip s) (k - 1)).length
          = (pyLowerStrip s).length - (k - 1) := by
        rw [pyTailTrunc, if_neg (by omega)]
        simp [List.length_take]
      rw [hlen] at hi
      rw [hkey]
      exact pySlice_length _ _ _ (by omega)
    · simp at h1

/-- The per-sequence k-mer table property established by
`count_k_mers_spec` for a window width `k ≥ 2`. -/
def KMerSpecAt (s : List Char) (k : Nat) : Prop :=
  (∀ kv ∈ count_k_mers s k, kv.1.length = k) ∧
  ((pyLowerStrip s).length < k → count_k_mers s k = []) ∧
  (count_k_mers s k).length ≤ 5 ∧
  sumVals (count_k_mers s k) ≤ (pyLowerStrip s).length + 1 - k ∧
  ((kmerCounts s k).length ≤ 5 →
    sumVals (count_k_mers s k) = (pyLowerStrip s).length + 1 - k) ∧
  count_k_mers s 1 = []

/-- The `k = 1` corner: Python's `sequence[:-(1-1)]` is `sequence[:0]`, the
empty string, so the counting loop never runs. -/
theorem count_k_mers_one (s : List Char) : count_k_mers s 1 = [] := by
  have h : kmerCounts s 1 = [] := by
    by_cases h1 : (pyLowerStrip s).length < 1
    · exact kmerCounts_of_short s 1 h1
    · rw [kmerCounts_of_long s 1 h1]
      simp [pyTailTrunc]
  rw [count_k_mers, h]
  rfl

/-- C2 (corrected): for every sequence and every `k ≥ 2`, the table returned
by `count_k_mers` has only keys of length exactly `k`, is empty when the
normalized sequence is shorter than `k`, and has at most 5 entries whose
values sum to at most `len − k + 1`, with equality whenever nothing is lost
to the top-5 truncation (at most 5 distinct k-mers); for `k = 1` the
implementation returns an empty table. The original claim — value sum always
equal to `len − k + 1`, for every `k ≥ 1` — is refuted by
`count_k_mers_claim_cex`. -/
theorem count_k_mers_spec (s : List Char) (k : Nat) (hk : 2 ≤ k) : KMerSpecAt s k := by
  refine ⟨?_, ?_, ?_, ?_, ?_, count_k_mers_one s⟩
  · intro kv hkv
    rw [count_k_mers, pySortedTop] at hkv
    have h1 : kv ∈ pySortDesc (kmerCounts s k) := (List.take_sublist _ _).subset hkv
    rw [pySortDesc, List.mem_insertionSort] at h1
    exact kmerCounts_key_length s k hk kv h1
  · intro h
    rw [count_k_mers, kmerCounts_of_short s k h]
    rfl
  · exact pySortedTop_length _ _
  · rw [count_k_mers, ← sumVals_kmerCounts s k hk]
    exact sumVals_pySortedTop_le _ _
  · intro h
    rw [count_k_mers, pySortedTop_of_short _ _ h, sumVals_kmerCounts s k hk]

/-- C2 witness: the amended property evaluated at the sequence "ATGCAT"
with `k = 2`. -/
theorem count_k_mers_spec_witness : 2 ≤ 2 ∧ KMerSpecAt ("ATGCAT".toList) 2 :=
  ⟨by decide, count_k_mers_spec ("ATGCAT".toList) 2 (by decide)⟩

/-- C2 counterexample: the claim as stated fails. On "ATGCCGTA" with `k = 2`
there are 7 distinct 2-mers, so the top-5 truncation drops two windows and
the values sum to 5, not `8 − 2 + 1 = 7`; and for `k = 1` on "ATGC" the
table is empty (sum 0), not of sum `4 − 1 + 1 = 4`. -/
theorem count_k_mers_claim_cex :
    sumVals (count_k_mers ("ATGCCGTA".toList) 2) ≠ ("ATGCCGTA".toList).length - 2 + 1 ∧
    sumVals (count_k_mers ("ATGC".toList) 1) ≠ ("ATGC".toList).length - 1 + 1 := by
  decide

/-- C6: every top-K table produced by the system — `find_top_values` applied
to any merged global table with limit 5, and the per-sequence top-5 table of
`count_k_mers` — has at most 5 entries, is sorted by count in descending
order, and breaks ties stably: for each count value, its entries with that
count form an initial segment (in order) of the entries with that count of
the underlying counting pass (`results` resp. `kmerCounts`). -/
theorem top_k_table_invariants (results : List (List Char × Nat))
    (s : List Char) (k : Nat) :
    ((find_top_values results 5).length ≤ 5 ∧
      (find_top_values results 5).Pairwise countGE ∧
      ∀ c, ∃ t, (find_top_values results 5).filter (fun kv => kv.2 == c) ++ t
            = results.filter (fun kv => kv.2 == c)) ∧
    ((count_k_mers s k).length ≤ 5 ∧
      (count_k_mers s k).Pairwise countGE ∧
      ∀ c, ∃ t, (count_k_mers s k).filter (fun kv => kv.2 == c) ++ t
            = (kmerCounts s k).filter (fun kv => kv.2 == c)) :=
  ⟨⟨pySortedTop_length _ _, pySortedTop_sorted _ _, fun c => pySortedTop_filter _ _ c⟩,
   ⟨pySortedTop_length _ _, pySortedTop_sorted _ _, fun c => pySortedTop_filter _ _ c⟩⟩

/-- C5: the Validator returns true iff the length strictly exceeds the
minimum and every character belongs to the accepted alphabet; otherwise it
returns false (being Boolean-valued). -/
theorem validate_sequence_spec (s L : List Char) (m : Nat) :
    validate_sequence s L m = true ↔ m < s.length ∧ ∀ c ∈ s, c ∈ L :=
  validate_sequence_iff s L m

/-- C4 counterexample: the Validator is not case-insensitive. The raw input
"atg" is rejected while its upper-cased form "ATG" is accepted, so
acceptance of `s` and of `upper(s)` are not equivalent. -/
theorem validate_case_cex :
    validate_sequence ("atg".toList) NUCLEOTIDE_LIST 2
      ≠ validate_sequence (pyUpper ("atg".toList)) NUCLEOTIDE_LIST 2 := by
  decide

/-- Characters of the accepted alphabet are fixed by upper-casing. -/
theorem toUpper_of_mem_nucleotide (c : Char) (h : c ∈ NUCLEOTIDE_LIST) :
    Char.toUpper c = c := by
  simp [NUCLEOTIDE_LIST] at h
  rcases h with rfl | rfl | rfl | rfl <;> decide

/-- A map that fixes every element of a list leaves the list unchanged. -/
theorem map_eq_self_of (f : Char → Char) :
    ∀ (l : List Char), (∀ c ∈ l, f c = c) → l.map f = l
  | [], _ => rfl
  | c :: t, h => by
    rw [List.map_cons, h c (List.mem_cons_self c t),
      map_eq_self_of f t (fun x hx => h x (List.mem_cons_of_mem _ hx))]

/-- C4 (corrected): validation is case-sensitive, not case-insensitive. The
Validator accepts only strings of upper-case A/T/G/C, so when it accepts
`s`, upper-casing leaves `s` unchanged and the upper-cased form is accepted
as well — but the claimed equivalence fails in the other direction (see
`validate_case_cex`): a lower-case spelling of an acceptable sequence is
rejected. Case normalization happens later, in the counting stage. -/
theorem validate_upper_amended (s : List Char) (m : Nat)
    (h : validate_sequence s NUCLEOTIDE_LIST m = true) :
    pyUpper s = s ∧ validate_sequence (pyUpper s) NUCLEOTIDE_LIST m = true := by
  rcases (validate_sequence_iff s NUCLEOTIDE_LIST m).mp h with ⟨hlen, hmem⟩
  have hupper : pyUpper s = s :=
    map_eq_self_of _ s (fun c hc => toUpper_of_mem_nucleotide c (hmem c hc))
  exact ⟨hupper, by rw [hupper]; exact h⟩

/-- C4 witness: the amended property at the accepted input "ATG". -/
theorem validate_upper_amended_witness :
    pyUpper ("ATG".toList) = ("ATG".toList) ∧
    validate_sequence (pyUpper ("ATG".toList)) NUCLEOTIDE_LIST 2 = true :=
  validate_upper_amended ("ATG".toList) 2 (by decide)

/-- Embedding of `count_nucleotides` (sequence_utils.py lines 169-184):
lower-case, strip, then count every character (Python
`defaultdict(int, Counter(...))`, a total map that is 0 on absent keys). -/
def count_nucleotides (sequence : List Char) : Char → Nat :=
  fun c => (pyLowerStrip sequence).count c

/-- A list whose characters all fail a predicate is unchanged by
`dropWhile` (only the head is ever examined). -/
theorem dropWhile_eq_self_of (p : Char → Bool) :
    ∀ (l : List Char), (∀ c ∈ l, p c = false) → l.dropWhile p = l
  | [], _ => rfl
  | c :: t, h => by
    rw [List.dropWhile_cons, h c (List.mem_cons_self c t)]
    simp

/-- Stripping changes nothing when no character is whitespace. -/
theorem pyStrip_eq_self (l : List Char) (h : ∀ c ∈ l, c.isWhitespace = false) :
    pyStrip l = l := by
  rw [pyStrip, dropWhile_eq_self_of _ l h,
    dropWhile_eq_self_of _ l.reverse (fun c hc => h c (List.mem_reverse.mp hc))]
  exact List.reverse_reverse l

/-- On an A/T/G/C sequence, normalization is exactly character-wise
lower-casing (no whitespace to strip). -/
theorem pyLowerStrip_of_nucleotide (s : List Char)
    (h : ∀ c ∈ s, c ∈ NUCLEOTIDE_LIST) :
    pyLowerStrip s = s.map Char.toLower := by
  rw [pyLowerStrip]
  apply pyStrip_eq_self
  intro c hc
  rw [List.mem_map] at hc
  rcases hc with ⟨c', hc', rfl⟩
  have hc' := h c' hc'
  simp [NUCLEOTIDE_LIST] at hc'
  rcases hc' with rfl | rfl | rfl | rfl <;> decide

/-- The four counted bases exhaust a list of a/t/g/c characters. -/
theorem count_sum_of_atgc :
    ∀ (l : List Char), (∀ c ∈ l, c ∈ (['a', 't', 'g', 'c'] : List Char)) →
      l.count 'a' + l.count 't' + l.count 'g' + l.count 'c' = l.length
  | [], _ => rfl
  | c :: t, h => by
    have ih := count_sum_of_atgc t (fun x hx => h x (List.mem_cons_of_mem _ hx))
    have hc := h c (List.mem_cons_self c t)
    simp only [List.mem_cons, List.not_mem_nil, or_false] at hc
    rcases hc with rfl | rfl | rfl | rfl <;>
      (simp +decide [List.count_cons]; omega)

/-- The four per-base counts never exceed the list length. -/
theorem count_sum_le :
    ∀ (l : List Char),
      l.count 'a' + l.count 't' + l.count 'g' + l.count 'c' ≤ l.length
  | [] => Nat.le_refl 0
  | c :: t => by
    have ih := count_sum_le t
    by_cases h1 : c = 'a'
    · subst h1; simp +decide [List.count_cons]; omega
    · by_cases h2 : c = 't'
      · subst h2; simp +decide [List.count_cons]; omega
      · by_cases h3 : c = 'g'
        · subst h3; simp +decide [List.count_cons]; omega
        · by_cases h4 : c = 'c'
          · subst h4; simp +decide [List.count_cons]; omega
          · simp [List.count_cons, h1, h2, h3, h4]
            omega

/-- C7: for every sequence that passes the Validator (alphabet
`NUCLEOTIDE_LIST`, minimum length 2, as called in `__main__`), the sum of
the four per-base counts of `count_nucleotides` is at most the length of
the normalized sequence, and equals it because every character is one of
A/T/G/C; a base absent from the sequence gets count 0 rather than an
error. -/
theorem count_nucleotides_spec (s : List Char)
    (h : validate_sequence s NUCLEOTIDE_LIST 2 = true) :
    (count_nucleotides s 'a' + count_nucleotides s 't' + count_nucleotides s 'g'
        + count_nucleotides s 'c' ≤ (pyLowerStrip s).length) ∧
    (count_nucleotides s 'a' + count_nucleotides s 't' + count_nucleotides s 'g'
        + count_nucleotides s 'c' = (pyLowerStrip s).length) ∧
    (∀ c, ¬ c ∈ pyLowerStrip s → count_nucleotides s c = 0) := by
  rcases (validate_sequence_iff s NUCLEOTIDE_LIST 2).mp h with ⟨hlen, hmem⟩
  have hs : pyLowerStrip s = s.map Char.toLower := pyLowerStrip_of_nucleotide s hmem
  have hmem' : ∀ c ∈ pyLowerStrip s, c ∈ (['a', 't', 'g', 'c'] : List Char) := by
    rw [hs]
    intro c hc
    rw [List.mem_map] at hc
    rcases hc with ⟨c', hc', rfl⟩
    have hc' := hmem c' hc'
    simp [NUCLEOTIDE_LIST] at hc'
    rcases hc' with rfl | rfl | rfl | rfl <;> decide
  refine ⟨count_sum_le (pyLowerStrip s), count_sum_of_atgc (pyLowerStrip s) hmem', ?_⟩
  intro c hc
  exact List.count_eq_zero.mpr hc

/-- C7 witness: the per-base count sum at the validated input "ATGC". -/
theorem count_nucleotides_spec_witness :
    count_nucleotides ("ATGC".toList) 'a' + count_nucleotides ("ATGC".toList) 't'
        + count_nucleotides ("ATGC".toList) 'g' + count_nucleotides ("ATGC".toList) 'c'
      = (pyLowerStrip ("ATGC".toList)).length :=
  (count_nucleotides_spec ("ATGC".toList) (by decide)).2.1

/-- Embedding of the base-pairing map of `reverse_complement`
(sequence_utils.py line 128). The Python dict lookup raises `KeyError` on
any other character; the model is total and returns the character itself
there — callers never rely on this: every palindrome claim restricts the
sequence to the A/T/G/C alphabet, where the model agrees with the source. -/
def complementChar (c : Char) : Char :=
  if c = 'A' then 'T' else if c = 'T' then 'A'
  else if c = 'C' then 'G' else if c = 'G' then 'C' else c

/-- Embedding of `reverse_complement` (sequence_utils.py lines 115-129):
reverse the sequence, then map each base to its pairing partner. -/
def reverse_complement (sequence : List Char) : List Char :=
  (sequence.reverse).map complementChar

/-- The result record of `find_longest_dna_palindrome`: the Python dict
`{"palindrome_seq": ..., "palindrome_length": ...}`. -/
structure PalindromeRec where
  palindrome_seq : List Char
  palindrome_length : Nat
deriving DecidableEq

/-- One step of the search loop of `find_longest_dna_palindrome`
(sequence_utils.py lines 156-164): keep the candidate `V x` when the
condition `C x` holds and its length strictly improves on the best so far
(so ties never overwrite). -/
def bestStep {α : Type} (C : α → Prop) [DecidablePred C] (V : α → List Char)
    (st : PalindromeRec) (x : α) : PalindromeRec :=
  if C x ∧ st.palindrome_length < (V x).length then ⟨V x, (V x).length⟩ else st

/-- The loop order of `find_longest_dna_palindrome`: all pairs
`(length, start)` with `min_length ≤ length ≤ n` (outer loop, increasing)
and `0 ≤ start ≤ n - length` (inner loop, increasing). -/
def palPairs (min_length n : Nat) : List (Nat × Nat) :=
  ((List.range (n + 1 - min_length)).map (fun j => min_length + j)).flatMap
    (fun L => (List.range (n - L + 1)).map (fun i => (L, i)))

/-- Embedding of `find_longest_dna_palindrome` (sequence_utils.py lines
132-166): precompute the reverse complement of the whole sequence; for
every candidate length and start offset, in loop order, compare the slice
of the sequence against the corresponding slice of the precomputed reverse
complement, keeping the first strict improvement. -/
def find_longest_dna_palindrome (sequence : List Char) (min_length : Nat := 20) :
    PalindromeRec :=
  let n := sequence.length
  let rev_complement := reverse_complement sequence
  (palPairs min_length n).foldl
    (bestStep
      (fun p => pySlice sequence p.2 (p.2 + p.1)
        = pySlice rev_complement (n - p.2 - p.1) (n - p.2))
      (fun p => pySlice sequence p.2 (p.2 + p.1)))
    ⟨[], 0⟩

/-- Characterization of the first-strict-improvement scan: either no
candidate passes the test with a length above the initial best and the
state is unchanged, or the result is the first passing candidate that no
later passing candidate strictly exceeds and that strictly exceeds every
earlier passing candidate. -/
theorem bestStep_foldl_spec {α : Type} (C : α → Prop) [DecidablePred C]
    (V : α → List Char) :
    ∀ (l : List α) (st : PalindromeRec),
      (l.foldl (bestStep C V) st = st ∧
        ∀ x ∈ l, C x → (V x).length ≤ st.palindrome_length)
      ∨ (∃ l₁ x l₂, l = l₁ ++ x :: l₂ ∧ C x ∧
          st.palindrome_length < (V x).length ∧
          l.foldl (bestStep C V) st = ⟨V x, (V x).length⟩ ∧
          (∀ y ∈ l₁, C y → (V y).length < (V x).length) ∧
          (∀ y ∈ l₂, C y → (V y).length ≤ (V x).length))
  | [], st => Or.inl ⟨rfl, by simp⟩
  | a :: l, st => by
    rw [List.foldl_cons]
    by_cases ha : C a ∧ st.palindrome_length < (V a).length
    · have hstep : bestStep C V st a = ⟨V a, (V a).length⟩ := if_pos ha
      rw [hstep]
      rcases bestStep_foldl_spec C V l ⟨V a, (V a).length⟩ with ⟨heq, hall⟩ |
        ⟨l₁, x, l₂, hsplit, hx, hlt, heq, hbefore, hafter⟩
      · exact Or.inr ⟨[], a, l, by simp, ha.1, ha.2, heq, by simp,
          fun y hy hCy => hall y hy hCy⟩
      · have hlt' : (V a).length < (V x).length := hlt
        refine Or.inr ⟨a :: l₁, x, l₂, by rw [hsplit]; rfl, hx, by omega, heq, ?_, hafter⟩
        intro y hy hCy
        rcases List.mem_cons.mp hy with rfl | hy'
        · exact hlt'
        · exact hbefore y hy' hCy
    · have hstep : bestStep C V st a = st := if_neg ha
      rw [hstep]
      rcases bestStep_foldl_spec C V l st with ⟨heq, hall⟩ |
        ⟨l₁, x, l₂, hsplit, hx, hlt, heq, hbefore, hafter⟩
      · refine Or.inl ⟨heq, ?_⟩
        intro y hy hCy
        rcases List.mem_cons.mp hy with rfl | hy'
        · by_cases hl : st.palindrome_length < (V y).length
          · exact absurd ⟨hCy, hl⟩ ha
          · omega
        · exact hall y hy' hCy
      · refine Or.inr ⟨a :: l₁, x, l₂, by rw [hsplit]; rfl, hx, hlt, heq, ?_, hafter⟩
        intro y hy hCy
        rcases List.mem_cons.mp hy with rfl | hy'
        · have hle : ¬ st.palindrome_length < (V y).length := fun hh => ha ⟨hCy, hh⟩
          omega
        · exact hbefore y hy' hCy

/-- Slicing commutes with mapping. -/
theorem pySlice_map (f : Char → Char) (s : List Char) (a b : Nat) :
    pySlice (s.map f) a b = (pySlice s a b).map f := by
  simp [pySlice]

/-- A slice of the reversed sequence is the reverse of the mirrored slice. -/
theorem rev_slice_core (s : List Char) (i L : Nat) (h : i + L ≤ s.length) :
    pySlice s.reverse (s.length - i - L) (s.length - i)
      = (pySlice s i (i + L)).reverse := by
  rw [pySlice, pySlice]
  have e1 : s.length - i - (s.length - i - L) = L := by omega
  rw [e1]
  have e2 : i + L - i = L := by omega
  rw [e2]
  rw [List.drop_reverse]
  have e3 : s.length - (s.length - i - L) = i + L := by omega
  rw [e3]
  rw [List.take_reverse]
  have e4 : (s.take (i + L)).length - L = i := by
    simp [List.length_take]
    omega
  rw [e4]
  rw [List.drop_take]
  have e5 : i + L - i = L := by omega
  rw [e5]

/-- The slice of the precomputed reverse complement compared by the search
loop is exactly the reverse complement of the candidate slice. -/
theorem revc_slice (s : List Char) (i L : Nat) (h : i + L ≤ s.length) :
    pySlice (reverse_complement s) (s.length - i - L) (s.length - i)
      = reverse_complement (pySlice s i (i + L)) := by
  rw [reverse_complement, pySlice_map, rev_slice_core s i L h, reverse_complement]

/-- The loop condition holds iff the candidate is its own reverse
complement. -/
theorem palCond_iff (s : List Char) (i L : Nat) (h : i + L ≤ s.length) :
    (pySlice s i (i + L)
        = pySlice (reverse_complement s) (s.length - i - L) (s.length - i))
      ↔ pySlice s i (i + L) = reverse_complement (pySlice s i (i + L)) := by
  rw [revc_slice s i L h]

/-- Membership in the loop order. -/
theorem mem_palPairs (minL n L i : Nat) :
    (L, i) ∈ palPairs minL n ↔ minL ≤ L ∧ L ≤ n ∧ i + L ≤ n := by
  simp only [palPairs, List.mem_flatMap, List.mem_map, List.mem_range]
  constructor
  · rintro ⟨L', ⟨j, hj, rfl⟩, i', hi', heq⟩
    injection heq with hL hi
    subst hL
    subst hi
    omega
  · rintro ⟨h1, h2, h3⟩
    exact ⟨L, ⟨L - minL, by omega, by omega⟩, i, by omega, rfl⟩

/-- Strict lexicographic order on (length, start) pairs: the loop order. -/
def pairLt (p q : Nat × Nat) : Prop := p.1 < q.1 ∨ (p.1 = q.1 ∧ p.2 < q.2)

/-- The loop visits the candidate pairs in strictly increasing
lexicographic order. -/
theorem pairwise_palPairs (minL n : Nat) : (palPairs minL n).Pairwise pairLt := by
  rw [palPairs, List.pairwise_flatMap]
  constructor
  · intro L hL
    rw [List.pairwise_map]
    refine List.Pairwise.imp ?_ (List.pairwise_lt_range _)
    intro a b hab
    exact Or.inr ⟨rfl, hab⟩
  · rw [List.pairwise_map]
    refine List.Pairwise.imp ?_ (List.pairwise_lt_range _)
    intro a b hab x hx y hy
    rw [List.mem_map] at hx hy
    rcases hx with ⟨i1, _, rfl⟩
    rcases hy with ⟨i2, _, rfl⟩
    exact Or.inl (by omega)

/-- Elements after the split point of the loop order are lexicographically
larger. -/
theorem palPairs_split_after (minL n : Nat) (l₁ l₂ : List (Nat × Nat))
    (x : Nat × Nat) (hsplit : palPairs minL n = l₁ ++ x :: l₂) :
    ∀ y ∈ l₂, pairLt x y := by
  have hp := pairwise_palPairs minL n
  rw [hsplit] at hp
  rcases List.pairwise_append.mp hp with ⟨_, hp2, _⟩
  exact (List.pairwise_cons.mp hp2).1

/-- A qualifying DNA palindrome: a window of length at least the minimum,
lying inside the sequence, equal to its own reverse complement. -/
def QualPal (s : List Char) (minL i L : Nat) : Prop :=
  minL ≤ L ∧ i + L ≤ s.length ∧
    pySlice s i (i + L) = reverse_complement (pySlice s i (i + L))

/-- The correctness property of `find_longest_dna_palindrome` proved by
`find_longest_dna_palindrome_correct`: either no window qualifies and the
empty record is returned, or the returned record is a longest qualifying
window and, among qualifying windows of that maximal length, the one with
the smallest start offset — the first in loop order; ties do not
overwrite. -/
def PalResultSpec (s : List Char) (minL : Nat) : Prop :=
  (find_longest_dna_palindrome s minL = ⟨[], 0⟩ ∧ ∀ i L, ¬ QualPal s minL i L)
  ∨ (∃ i L, QualPal s minL i L ∧
      find_longest_dna_palindrome s minL = ⟨pySlice s i (i + L), L⟩ ∧
      (∀ i' L', QualPal s minL i' L' → L' ≤ L) ∧
      (∀ i', i' < i → ¬ QualPal s minL i' L))

/-- C3: for every sequence over the A/T/G/C alphabet and positive minimum
length (configured: 20), `find_longest_dna_palindrome` returns the longest
substring of length at least the minimum that equals its own reverse
complement — the first such substring in loop order among those of maximal
length, ties not overwriting — or the empty record if none qualifies. -/
theorem find_longest_dna_palindrome_correct (s : List Char) (minL : Nat)
    (hmin : 1 ≤ minL) (_halpha : ∀ c ∈ s, c ∈ NUCLEOTIDE_LIST) :
    PalResultSpec s minL := by
  unfold PalResultSpec
  rcases bestStep_foldl_spec
      (fun p : Nat × Nat => pySlice s p.2 (p.2 + p.1)
        = pySlice (reverse_complement s) (s.length - p.2 - p.1) (s.length - p.2))
      (fun p : Nat × Nat => pySlice s p.2 (p.2 + p.1))
      (palPairs minL s.length) ⟨[], 0⟩ with
    ⟨heq, hnone⟩ | ⟨l₁, x, l₂, hsplit, hC, hlt, heq, hbefore, hafter⟩
  · left
    refine ⟨heq, ?_⟩
    intro i L hq
    rcases hq with ⟨hL, hiL, hpal⟩
    have hmem : (L, i) ∈ palPairs minL s.length :=
      (mem_palPairs minL s.length L i).mpr ⟨hL, by omega, hiL⟩
    have hcond : pySlice s i (i + L)
        = pySlice (reverse_complement s) (s.length - i - L) (s.length - i) :=
      (palCond_iff s i L hiL).mpr hpal
    have hlen := pySlice_length s i L hiL
    have hz := hnone (L, i) hmem hcond
    dsimp only at hz
    rw [hlen] at hz
    omega
  · obtain ⟨L, i⟩ := x
    have hmem : (L, i) ∈ palPairs minL s.length := by
      rw [hsplit]
      exact List.mem_append.mpr (Or.inr (List.mem_cons_self _ _))
    rcases (mem_palPairs minL s.length L i).mp hmem with ⟨hL, hLn, hiL⟩
    have hlen := pySlice_length s i L hiL
    have hq : QualPal s minL i L := ⟨hL, hiL, (palCond_iff s i L hiL).mp hC⟩
    right
    refine ⟨i, L, hq, ?_, ?_, ?_⟩
    · have hres : find_longest_dna_palindrome s minL
          = ⟨pySlice s i (i + L), (pySlice s i (i + L)).length⟩ := heq
      rw [hres, hlen]
    · intro i' L' hq'
      rcases hq' with ⟨hL', hiL', hpal'⟩
      have hmem' : (L', i') ∈ palPairs minL s.length :=
        (mem_palPairs minL s.length L' i').mpr ⟨hL', by omega, hiL'⟩
      have hcond' : pySlice s i' (i' + L')
          = pySlice (reverse_complement s) (s.length - i' - L') (s.length - i') :=
        (palCond_iff s i' L' hiL').mpr hpal'
      have hlen' := pySlice_length s i' L' hiL'
      rw [hsplit] at hmem'
      rcases List.mem_append.mp hmem' with hin | hin
      · have hb := hbefore (L', i') hin hcond'
        dsimp only at hb
        rw [hlen, hlen'] at hb
        omega
      · rcases List.mem_cons.mp hin with hxeq | hin'
        · injection hxeq with h1 h2
          omega
        · have hb := hafter (L', i') hin' hcond'
          dsimp only at hb
          rw [hlen, hlen'] at hb
          omega
    · intro i' hi' hq'
      rcases hq' with ⟨hL', hiL', hpal'⟩
      have hmem' : (L, i') ∈ palPairs minL s.length :=
        (mem_palPairs minL s.length L i').mpr ⟨hL', by omega, hiL'⟩
      have hcond' : pySlice s i' (i' + L)
          = pySlice (reverse_complement s) (s.length - i' - L) (s.length - i') :=
        (palCond_iff s i' L hiL').mpr hpal'
      have hlen' := pySlice_length s i' L hiL'
      rw [hsplit] at hmem'
      rcases List.mem_append.mp hmem' with hin | hin
      · have hb := hbefore (L, i') hin hcond'
        dsimp only at hb
        rw [hlen, hlen'] at hb
        omega
      · rcases List.mem_cons.mp hin with hxeq | hin'
        · injection hxeq with h1 h2
          omega
        · have hplt := palPairs_split_after minL s.length l₁ l₂ (L, i) hsplit
            (L, i') hin'
          simp only [pairLt] at hplt
          omega

/-- C3 witness: the correctness property at the 20-base sequence formed by
five repetitions of "AATT" (its own reverse complement), with the
configured minimum length 20. -/
theorem find_longest_dna_palindrome_correct_witness :
    PalResultSpec ("AATTAATTAATTAATTAATT".toList) 20 :=
  find_longest_dna_palindrome_correct ("AATTAATTAATTAATTAATT".toList) 20
    (by decide) (by decide)

/-- The `motifs` dict attached to a record by `create_dna_sequence_record`
(keys "cpg_islands" and "tata_boxes"). -/
structure Motifs where
  cpg_islands : Nat
  tata_boxes : Nat

/-- The `K_MERS` dict of a record (data_types.py lines 25-29): the four
per-sequence top-5 tables. -/
structure KMers where
  k_mer_n2_count : List (List Char × Nat)
  k_mer_n3_count : List (List Char × Nat)
  k_mer_n4_count : List (List Char × Nat)
  k_mer_n5_count : List (List Char × Nat)

/-- Embedding of the `DNASequence` record (data_types.py lines 32-40). -/
structure DNASequence where
  id : Nat
  adenine_count : Nat
  thymine_count : Nat
  guanine_count : Nat
  cytosine_count : Nat
  palindrome : PalindromeRec
  motifs : Motifs
  k_mers : KMers

/-- Embedding of `create_dna_sequence_record` (sequence_utils.py lines
212-255). -/
def create_dna_sequence_record (id : Nat) (nucleotide_counts : Char → Nat)
    (sequence : List Char) (min_length : Nat) (k_mers : KMers) : DNASequence :=
  { id := id
    adenine_count := nucleotide_counts 'a'
    thymine_count := nucleotide_counts 't'
    guanine_count := nucleotide_counts 'g'
    cytosine_count := nucleotide_counts 'c'
    palindrome := find_longest_dna_palindrome sequence min_length
    motifs := { cpg_islands := find_motif sequence GC_ISLAND_MOTIF
                tata_boxes := find_motif sequence AT_RUN_MOTIF }
    k_mers := k_mers }

/-- Embedding of `process_data` (main.py lines 106-138): the per-sequence
analysis, with the constant record id `INDEX + 1`. -/
def process_data (sequence : List Char) : DNASequence :=
  create_dna_sequence_record (INDEX + 1) (count_nucleotides sequence) sequence
    PALINDROME_MIN_LENGTH
    { k_mer_n2_count := count_k_mers sequence 2
      k_mer_n3_count := count_k_mers sequence 3
      k_mer_n4_count := count_k_mers sequence 4
      k_mer_n5_count := count_k_mers sequence 5 }

/-- Model of a `Counter.update` step for one key: add `v` to the key's
count, or append the key at the end (a Counter keeps existing key order and
appends new keys). -/
def bumpKeyBy (l : List (List Char × Nat)) (key : List Char) (v : Nat) :
    List (List Char × Nat) :=
  match l with
  | [] => [(key, v)]
  | kv :: rest =>
    if kv.1 = key then (kv.1, kv.2 + v) :: rest else kv :: bumpKeyBy rest key v

/-- Embedding of `update_k_mer_counts` (sequence_utils.py lines 287-306):
`Counter(current_counts)` updated with `new_counts`, converted back to a
dict — an additive merge keeping existing key order and appending new keys
in the order of `new_counts`. -/
def update_k_mer_counts (current_counts new_counts : List (List Char × Nat)) :
    List (List Char × Nat) :=
  new_counts.foldl (fun acc kv => bumpKeyBy acc kv.1 kv.2) current_counts

/-- Embedding of the `SequenceStatistics` aggregate (data_types.py lines
43-55). -/
structure SequenceStatistics where
  total_adenine_count : Nat
  total_thymine_count : Nat
  total_guanine_count : Nat
  total_cytosine_count : Nat
  total_sequences_count : Nat
  invalid_sequences_count : Nat
  total_k_mer_count_2 : List (List Char × Nat)
  total_k_mer_count_3 : List (List Char × Nat)
  total_k_mer_count_4 : List (List Char × Nat)
  total_k_mer_count_5 : List (List Char × Nat)
  palindromes : List PalindromeRec
  dna_sequences : List DNASequence

/-- Embedding of `initialise_sequence_statistics` (main.py lines 59-82). -/
def initialise_sequence_statistics : SequenceStatistics :=
  { total_adenine_count := 0
    total_thymine_count := 0
    total_guanine_count := 0
    total_cytosine_count := 0
    total_sequences_count := 0
    invalid_sequences_count := 0
    total_k_mer_count_2 := []
    total_k_mer_count_3 := []
    total_k_mer_count_4 := []
    total_k_mer_count_5 := []
    palindromes := []
    dna_sequences := [] }

/-- The starting aggregate of `calculate_dna_sequence_statistics` (main.py
lines 179-181): the initial statistics with the two input counts set. -/
def seqDocInit (total_count invalid_count : Nat) : SequenceStatistics :=
  { initialise_sequence_statistics with
    total_sequences_count := total_count
    invalid_sequences_count := invalid_count }

/-- The body of the aggregation loop of `calculate_dna_sequence_statistics`
(main.py lines 183-202). -/
def aggStep (seq_doc : SequenceStatistics) (item : DNASequence) :
    SequenceStatistics :=
  { seq_doc with
    total_adenine_count := seq_doc.total_adenine_count + item.adenine_count
    total_thymine_count := seq_doc.total_thymine_count + item.thymine_count
    total_guanine_count := seq_doc.total_guanine_count + item.guanine_count
    total_cytosine_count := seq_doc.total_cytosine_count + item.cytosine_count
    total_k_mer_count_2 :=
      update_k_mer_counts seq_doc.total_k_mer_count_2 item.k_mers.k_mer_n2_count
    total_k_mer_count_3 :=
      update_k_mer_counts seq_doc.total_k_mer_count_3 item.k_mers.k_mer_n3_count
    total_k_mer_count_4 :=
      update_k_mer_counts seq_doc.total_k_mer_count_4 item.k_mers.k_mer_n4_count
    total_k_mer_count_5 :=
      update_k_mer_counts seq_doc.total_k_mer_count_5 item.k_mers.k_mer_n5_count
    palindromes :=
      if PALINDROME_MIN_LENGTH < item.palindrome.palindrome_length then
        seq_doc.palindromes ++ [item.palindrome]
      else seq_doc.palindromes
    dna_sequences := seq_doc.dna_sequences ++ [item] }

/-- Embedding of `calculate_dna_sequence_statistics` (main.py lines
162-208): a strict left fold over the records followed by the four global
top-5 reductions. -/
def calculate_dna_sequence_statistics (data : List DNASequence)
    (total_count invalid_count : Nat) : SequenceStatistics :=
  let folded := data.foldl aggStep (seqDocInit total_count invalid_count)
  { folded with
    total_k_mer_count_2 := find_top_values folded.total_k_mer_count_2 5
    total_k_mer_count_3 := find_top_values folded.total_k_mer_count_3 5
    total_k_mer_count_4 := find_top_values folded.total_k_mer_count_4 5
    total_k_mer_count_5 := find_top_values folded.total_k_mer_count_5 5 }

/-- The aggregation fold accumulates the four nucleotide totals. -/
theorem foldl_aggStep_totals :
    ∀ (data : List DNASequence) (st : SequenceStatistics),
      ((data.foldl aggStep st).total_adenine_count
          = st.total_adenine_count + (data.map (fun r => r.adenine_count)).sum) ∧
      ((data.foldl aggStep st).total_thymine_count
          = st.total_thymine_count + (data.map (fun r => r.thymine_count)).sum) ∧
      ((data.foldl aggStep st).total_guanine_count
          = st.total_guanine_count + (data.map (fun r => r.guanine_count)).sum) ∧
      ((data.foldl aggStep st).total_cytosine_count
          = st.total_cytosine_count + (data.map (fun r => r.cytosine_count)).sum)
  | [], st => by simp
  | r :: t, st => by
    rcases foldl_aggStep_totals t (aggStep st r) with ⟨h1, h2, h3, h4⟩
    rw [List.foldl_cons]
    refine ⟨?_, ?_, ?_, ?_⟩
    · rw [h1]; simp [aggStep]; omega
    · rw [h2]; simp [aggStep]; omega
    · rw [h3]; simp [aggStep]; omega
    · rw [h4]; simp [aggStep]; omega

/-- C9: the Aggregator's four cumulative nucleotide totals are invariant
under permuting the record list — the fold only adds them, and addition is
commutative and associative. -/
theorem aggregator_totals_perm (d d' : List DNASequence) (tc ic : Nat)
    (h : d.Perm d') :
    ((calculate_dna_sequence_statistics d tc ic).total_adenine_count
        = (calculate_dna_sequence_statistics d' tc ic).total_adenine_count) ∧
    ((calculate_dna_sequence_statistics d tc ic).total_thymine_count
        = (calculate_dna_sequence_statistics d' tc ic).total_thymine_count) ∧
    ((calculate_dna_sequence_statistics d tc ic).total_guanine_count
        = (calculate_dna_sequence_statistics d' tc ic).total_guanine_count) ∧
    ((calculate_dna_sequence_statistics d tc ic).total_cytosine_count
        = (calculate_dna_sequence_statistics d' tc ic).total_cytosine_count) := by
  have hsum : ∀ (f : DNASequence → Nat), (d.map f).sum = (d'.map f).sum :=
    fun f => List.Perm.sum_eq (List.Perm.map f h)
  rcases foldl_aggStep_totals d (seqDocInit tc ic) with ⟨a1, a2, a3, a4⟩
  rcases foldl_aggStep_totals d' (seqDocInit tc ic) with ⟨b1, b2, b3, b4⟩
  refine ⟨?_, ?_, ?_, ?_⟩
  · have e1 : (calculate_dna_sequence_statistics d tc ic).total_adenine_count
        = (seqDocInit tc ic).total_adenine_count
          + (d.map (fun r => r.adenine_count)).sum := a1
    have e2 : (calculate_dna_sequence_statistics d' tc ic).total_adenine_count
        = (seqDocInit tc ic).total_adenine_count
          + (d'.map (fun r => r.adenine_count)).sum := b1
    rw [e1, e2, hsum]
  · have e1 : (calculate_dna_sequence_statistics d tc ic).total_thymine_count
        = (seqDocInit tc ic).total_thymine_count
          + (d.map (fun r => r.thymine_count)).sum := a2
    have e2 : (calculate_dna_sequence_statistics d' tc ic).total_thymine_count
        = (seqDocInit tc ic).total_thymine_count
          + (d'.map (fun r => r.thymine_count)).sum := b2
    rw [e1, e2, hsum]
  · have e1 : (calculate_dna_sequence_statistics d tc ic).total_guanine_count
        = (seqDocInit tc ic).total_guanine_count
          + (d.map (fun r => r.guanine_count)).sum := a3
    have e2 : (calculate_dna_sequence_statistics d' tc ic).total_guanine_count
        = (seqDocInit tc ic).total_guanine_count
          + (d'.map (fun r => r.guanine_count)).sum := b3
    rw [e1, e2, hsum]
  · have e1 : (calculate_dna_sequence_statistics d tc ic).total_cytosine_count
        = (seqDocInit tc ic).total_cytosine_count
          + (d.map (fun r => r.cytosine_count)).sum := a4
    have e2 : (calculate_dna_sequence_statistics d' tc ic).total_cytosine_count
        = (seqDocInit tc ic).total_cytosine_count
          + (d'.map (fun r => r.cytosine_count)).sum := b4
    rw [e1, e2, hsum]

/-- A concrete record used only by the C9 witness. -/
def recA : DNASequence :=
  { id := 1, adenine_count := 5, thymine_count := 3, guanine_count := 2,
    cytosine_count := 1, palindrome := ⟨[], 0⟩,
    motifs := { cpg_islands := 0, tata_boxes := 0 },
    k_mers := { k_mer_n2_count := [], k_mer_n3_count := [],
                k_mer_n4_count := [], k_mer_n5_count := [] } }

/-- A second concrete record used only by the C9 witness. -/
def recB : DNASequence :=
  { id := 1, adenine_count := 2, thymine_count := 7, guanine_count := 4,
    cytosine_count := 6, palindrome := ⟨[], 0⟩,
    motifs := { cpg_islands := 0, tata_boxes := 0 },
    k_mers := { k_mer_n2_count := [], k_mer_n3_count := [],
                k_mer_n4_count := [], k_mer_n5_count := [] } }

/-- C9 witness: swapping a concrete two-record list leaves the four totals
unchanged. -/
theorem aggregator_totals_perm_witness :
    ((calculate_dna_sequence_statistics [recA, recB] 2 0).total_adenine_count
        = (calculate_dna_sequence_statistics [recB, recA] 2 0).total_adenine_count) ∧
    ((calculate_dna_sequence_statistics [recA, recB] 2 0).total_thymine_count
        = (calculate_dna_sequence_statistics [recB, recA] 2 0).total_thymine_count) ∧
    ((calculate_dna_sequence_statistics [recA, recB] 2 0).total_guanine_count
        = (calculate_dna_sequence_statistics [recB, recA] 2 0).total_guanine_count) ∧
    ((calculate_dna_sequence_statistics [recA, recB] 2 0).total_cytosine_count
        = (calculate_dna_sequence_statistics [recB, recA] 2 0).total_cytosine_count) :=
  aggregator_totals_perm [recA, recB] [recB, recA] 2 0 (List.Perm.swap recB recA [])

/-- C10: every record built by the per-sequence analysis carries the
constant identifier `INDEX + 1 = 1`; record identifiers are therefore the
same for every record of a run and are not unique per sequence. -/
theorem process_data_id_constant (sequence : List Char) :
    (process_data sequence).id = 1 := rfl
